import Mathlib

/-!
Verification development for the repository-ingestion pipeline of
LLM-TXT-API (`src/utils.ts`, served by `src/server.ts`).

Strings are modelled as `List Char` (`Str`), file and path names as lists of
path segments, and every effectful operation is modelled by explicit
arguments describing the environment's responses (filesystem contents,
HTTP responses, `df` output, ...).  All definitions are translated from the
TypeScript source; the third-party `ignore` npm package (a dependency, not
part of the repository) is modelled from standard gitignore glob semantics,
which is what the package implements and what the specification appeals to.
-/

set_option maxHeartbeats 1000000

namespace RepoGist

/-- JavaScript strings as lists of characters. -/
abbrev Str := List Char

/-! ## Primitives for the JS regular expressions used in the source

Each regex in `utils.ts` is a simple anchored alternation of literal runs,
single-character classes (`[^/]+`, `[^:]+`, `.`) and optional groups; on such
patterns the JS backtracking engine is deterministic, so each regex is
translated into a first-order matching function. -/

/-- Drops literal `p` from the front of `l` when `l` starts with `p`
(the anchored literal part of a regex). -/
def dropPre : Str → Str → Option Str
  | [], l => some l
  | _ :: _, [] => none
  | c :: ps, d :: ls => if d = c then dropPre ps ls else none

/-- The maximal run matched by a greedy `[^sep]+` (possibly empty here;
emptiness is checked at use sites). -/
def takeSeg (sep : Char) (l : Str) : Str := l.takeWhile (· ≠ sep)

/-- What remains after `takeSeg`. -/
def dropSeg (sep : Char) (l : Str) : Str := l.dropWhile (· ≠ sep)

/-- The JS `.` atom: any character except a line terminator. -/
def jsDot (c : Char) : Bool :=
  c ≠ '\n' && c ≠ '\r' && c.toNat ≠ 0x2028 && c.toNat ≠ 0x2029

/-- The regex fragment `.+\.git$` applied to `l`. -/
def dotPlusGit (l : Str) : Bool :=
  match l.reverse with
  | 't' :: 'i' :: 'g' :: '.' :: rest => rest ≠ [] && rest.all jsDot
  | _ => false

/-- JS `s.replace(/\.git$/, '')`: remove one trailing `.git` when present. -/
def stripGitSuffix (l : Str) : Str :=
  match l.reverse with
  | 't' :: 'i' :: 'g' :: '.' :: rest => rest.reverse
  | _ => l

/-! ## URL Normalizer (`convertUrlToGitUrl`, `isGitUrl`) -/

/-- Result type of `convertUrlToGitUrl`: `{ url, branch? }`. -/
structure GitUrlInfo where
  url : Str
  branch : Option Str
deriving DecidableEq, Repr

def ghHost : Str := "https://github.com/".toList
def glHost : Str := "https://gitlab.com/".toList

/-- The shared shape of `githubWebPattern` and `gitlabWebPattern` in the
source: `^https://<host>/([^/]+)/([^/]+)(<treeMark>([^/]+))?` (unanchored at
the right end), returning the `owner`, `repo` and optional `branch`
captures.  `treeMark` is the literal `/tree/` for GitHub; for GitLab it is
the same marker with an extra dash segment in front ("slash dash" before
`tree`). -/
def matchBrowse (hostPre treeMark : Str) (url : Str) :
    Option (Str × Str × Option Str) :=
  match dropPre hostPre url with
  | none => none
  | some r =>
    let owner := takeSeg '/' r
    if owner = [] then none else
    match dropSeg '/' r with
    | '/' :: r2 =>
      let repo := takeSeg '/' r2
      if repo = [] then none else
      let r3 := dropSeg '/' r2
      let branch :=
        match dropPre treeMark r3 with
        | some r4 => let b := takeSeg '/' r4; if b = [] then none else some b
        | none => none
      some (owner, repo, branch)
    | _ => none

/-- `convertUrlToGitUrl` from `utils.ts`.  The anchored `githubRepoPattern` /
`gitlabRepoPattern` fallbacks of the source are subsumed by the unanchored
web patterns (every string matching the anchored pattern also matches the
unanchored one), so they can never fire and are not modelled separately.
The JS spread `...(branch && { branch })` keeps the branch exactly when the
capture is a non-empty string, which is exactly when the optional group
matched. -/
def convertUrlToGitUrl (url : Str) : GitUrlInfo :=
  match matchBrowse ghHost ("/tree/".toList) url with
  | some (o, r, b) => ⟨ghHost ++ o ++ ['/'] ++ stripGitSuffix r ++ ".git".toList, b⟩
  | none =>
    match matchBrowse glHost ("/-/tree/".toList) url with
    | some (o, r, b) => ⟨glHost ++ o ++ ['/'] ++ stripGitSuffix r ++ ".git".toList, b⟩
    | none => ⟨url, none⟩

/-- The regex `^git@[^:]+:.+\.git$` (first pattern of `isGitUrl`). -/
def sshGitTest (url : Str) : Bool :=
  match dropPre ("git@".toList) url with
  | none => false
  | some r =>
    let host := takeSeg ':' r
    if host = [] then false else
    match dropSeg ':' r with
    | ':' :: body => dotPlusGit body
    | _ => false

/-- The regex `^https:\/\/[^/]+\/.+\.git$` (second pattern of `isGitUrl`). -/
def httpsGitTest (url : Str) : Bool :=
  match dropPre ("https://".toList) url with
  | none => false
  | some r =>
    let host := takeSeg '/' r
    if host = [] then false else
    match dropSeg '/' r with
    | '/' :: body => dotPlusGit body
    | _ => false

/-- The anchored browse-URL regexes
`^https://<host>/[^/]+/[^/]+(<treeMark>[^/]+)?$`
(third and fourth patterns of `isGitUrl`). -/
def browseTest (hostPre treeMark : Str) (url : Str) : Bool :=
  match dropPre hostPre url with
  | none => false
  | some r =>
    let owner := takeSeg '/' r
    if owner = [] then false else
    match dropSeg '/' r with
    | '/' :: r2 =>
      let repo := takeSeg '/' r2
      if repo = [] then false else
      match dropSeg '/' r2 with
      | [] => true
      | r3 =>
        match dropPre treeMark r3 with
        | some b => b ≠ [] && b.all (· ≠ '/')
        | none => false
    | _ => false

/-- `isGitUrl` from `utils.ts`: `patterns.some(p => p.test(url))`. -/
def isGitUrl (url : Str) : Bool :=
  sshGitTest url || httpsGitTest url ||
    browseTest ghHost ("/tree/".toList) url ||
    browseTest glHost ("/-/tree/".toList) url

example :
    convertUrlToGitUrl ("https://github.com/acme/widgets/tree/main".toList) =
      ⟨"https://github.com/acme/widgets.git".toList, some ("main".toList)⟩ := by
  decide

example :
    convertUrlToGitUrl ("https://gitlab.com/acme/widgets.git".toList) =
      ⟨"https://gitlab.com/acme/widgets.git".toList, none⟩ := by
  decide

example : isGitUrl ("git@bitbucket.org:acme/widgets.git".toList) = true := by decide
example : isGitUrl ("https://example.com/x/y.git".toList) = true := by decide
example : isGitUrl ("https://github.com/acme/widgets/tree/main".toList) = true := by decide
example : isGitUrl ("not a url".toList) = false := by decide

/-! ## Ignore Engine

The source composes path-exclusion rules with the third-party `ignore` npm
package: `ignore().add(layer1).add(layer2)... .ignores(relativePath)`.
The package implements the gitignore pattern language; we model it here:

* a pattern line is parsed into a rule (negation prefix `!`, trailing `/`
  directory-only marker, anchoring when the body contains a `/`, segments
  split on `/` with `*` and `?` single-segment wildcards and `**`
  multi-segment wildcards);
* `add` appends parsed rules in order (blank lines and `#` comments are
  dropped), so the accumulated rule list is the concatenation of the layers;
* `ignores(path)` tests the `/`-separated path: a path is ignored when one
  of its ancestor directories is ignored, or when the last rule matching
  the path itself is not a negation (last match wins).

Paths are modelled as non-empty lists of name segments, as produced by
`path.relative` (never empty, no trailing separator in the source's calls).
Pattern escapes and trailing-whitespace trimming are not used by any layer
in the source and are not modelled. -/

/-- One wildcard token inside a path segment of a gitignore pattern. -/
inductive GlobTok where
  | star
  | qmark
  | lit (c : Char)
deriving DecidableEq, Repr

/-- One segment of a gitignore pattern: the multi-segment wildcard `**`,
or a sequence of single-segment tokens. -/
inductive GlobSeg where
  | stars
  | toks (ts : List GlobTok)
deriving DecidableEq, Repr

/-- A parsed gitignore rule. -/
structure IgnoreRule where
  negative : Bool
  dirOnly : Bool
  anchored : Bool
  segs : List GlobSeg
deriving DecidableEq, Repr

/-- Matches token list `ts` against one path segment (`*` never crosses a
separator; segments contain none).  `*` consumes an arbitrary prefix, so it
matches when the remaining tokens match some suffix. -/
def tokMatch : List GlobTok → Str → Bool
  | [], s => s.isEmpty
  | .star :: ts, s => s.tails.any (fun suf => tokMatch ts suf)
  | .qmark :: ts, s =>
    match s with
    | [] => false
    | _ :: cs => tokMatch ts cs
  | .lit c :: ts, s =>
    match s with
    | [] => false
    | d :: cs => d = c && tokMatch ts cs

/-- Matches an anchored pattern's segments against a path's segments.
A trailing `**` matches everything inside (at least one further
component); a leading or inner `**` matches zero or more components. -/
def segsMatch : List GlobSeg → List Str → Bool
  | [], segs => segs.isEmpty
  | [GlobSeg.stars], segs => !segs.isEmpty
  | .stars :: rest, segs => segs.tails.any (fun suf => segsMatch rest suf)
  | .toks ts :: rest, segs =>
    match segs with
    | [] => false
    | s :: tl => tokMatch ts s && segsMatch rest tl

/-- Does rule `r` match the path `path` (tested as a directory when
`asDir`)?  Directory-only rules never match a path tested as a file; an
unanchored rule (no `/` in the pattern body) matches on the last name
segment at any depth. -/
def ruleMatchesPath (r : IgnoreRule) (path : List Str) (asDir : Bool) : Bool :=
  if r.dirOnly && !asDir then false
  else if r.anchored then segsMatch r.segs path
  else
    match path.getLast? with
    | none => false
    | some last =>
      match r.segs with
      | [GlobSeg.stars] => true
      | [GlobSeg.toks ts] => tokMatch ts last
      | _ => false

/-- One step of the rule scan: a matching rule overrides the accumulated
verdict with its own polarity. -/
def stepRule (path : List Str) (asDir : Bool) (acc : Bool) (r : IgnoreRule) : Bool :=
  if ruleMatchesPath r path asDir then !r.negative else acc

/-- Last-match-wins over the accumulated rule list (gitignore semantics:
the final matching rule decides, a matching negation re-includes). -/
def matchLast (rules : List IgnoreRule) (path : List Str) (asDir : Bool) : Bool :=
  rules.foldl (stepRule path asDir) false

/-- A path is ignored when an ancestor directory is ignored or the path
itself is decided ignored; ancestors are tested as directories, the path
itself as given (the source always passes separator-free relative paths,
so the final component is tested without a trailing separator). -/
def cascadeIgnores (rules : List IgnoreRule) : List Str → List Str → Bool
  | _, [] => false
  | acc, s :: rest =>
    if rest.isEmpty then matchLast rules (acc ++ [s]) false
    else matchLast rules (acc ++ [s]) true || cascadeIgnores rules (acc ++ [s]) rest

/-- Splits on a separator character (JS `String.prototype.split` with a
single-character separator). -/
def splitChar (sep : Char) : Str → List Str
  | [] => [[]]
  | c :: rest =>
    match splitChar sep rest with
    | [] => if c = sep then [[], []] else [[c]]
    | h :: t => if c = sep then [] :: h :: t else (c :: h) :: t

def parseTok (c : Char) : GlobTok :=
  if c = '*' then .star else if c = '?' then .qmark else .lit c

def parseSeg (s : Str) : GlobSeg :=
  if s = "**".toList then .stars else .toks (s.map parseTok)

/-- Parses one pattern line; blank lines and `#` comments yield no rule. -/
def parsePattern (p : Str) : Option IgnoreRule :=
  if p = [] then none
  else if p.head? = some '#' then none
  else
    let neg : Bool := p.head? = some '!'
    let p1 := if neg then p.tail else p
    let dirOnly : Bool := p1.getLast? = some '/'
    let p2 := if dirOnly then p1.dropLast else p1
    let anchored := p2.contains '/'
    let p3 := if p2.head? = some '/' then p2.tail else p2
    some ⟨neg, dirOnly, anchored, (splitChar '/' p3).map parseSeg⟩

/-- The predicate built by `ignore().add(patterns).ignores(path)` for the
flattened pattern-line list `ps` (`add` concatenates layers in order). -/
def ignoresPatterns (ps : List Str) (path : List Str) : Bool :=
  cascadeIgnores (ps.filterMap parsePattern) [] path

/-- `DEFAULT_IGNORE_PATTERNS` from `utils.ts`, verbatim (including the
duplicated `yarn.lock` and `pnpm-lock.yaml` entries). -/
def DEFAULT_IGNORE_PATTERNS : List Str :=
  [ "**/*.lock".toList,
    "**/package-lock.json".toList,
    "**/yarn.lock".toList,
    "**/pnpm-lock.yaml".toList,
    "**/Gemfile.lock".toList,
    "**/Cargo.lock".toList,
    "**/composer.lock".toList,
    "**/poetry.lock".toList,
    "**/go.sum".toList,
    "**/yarn.lock".toList,
    "**/bun.lockb".toList,
    "**/pnpm-lock.yaml".toList,
    "**/npm-debug.log*".toList,
    "**/yarn-debug.log*".toList,
    "**/yarn-error.log*".toList ]

/-- The pattern layers accumulated by `generateTreeStructure`:
`ignoreFilter.add(['.git'])`, then the `.gitignore` lines when the file
exists (`gitignoreLines`, `[]` when absent), then the caller patterns. -/
def treeLayerPatterns (gitignoreLines callerPatterns : List Str) : List Str :=
  [".git".toList] ++ gitignoreLines ++ callerPatterns

/-- The exclusion predicate used by the Tree Renderer. -/
def treeIgnores (gitignoreLines callerPatterns : List Str) (path : List Str) : Bool :=
  ignoresPatterns (treeLayerPatterns gitignoreLines callerPatterns) path

/-- The pattern layers accumulated by `extractRepositoryContent`:
`ignoreFilter.add(['.git/'++'**', ...DEFAULT_IGNORE_PATTERNS])`, then the
`.gitignore` lines when present, then the caller patterns. -/
def contentLayerPatterns (gitignoreLines callerPatterns : List Str) : List Str :=
  [".git/**".toList] ++ DEFAULT_IGNORE_PATTERNS ++ gitignoreLines ++ callerPatterns

/-- The exclusion predicate used by the Content Extractor. -/
def contentIgnores (gitignoreLines callerPatterns : List Str) (path : List Str) : Bool :=
  ignoresPatterns (contentLayerPatterns gitignoreLines callerPatterns) path

example : contentIgnores [] [] ["package-lock.json".toList] = true := by decide
example : treeIgnores [] [] ["package-lock.json".toList] = false := by decide
example : treeIgnores [] [] [".git".toList, "config".toList] = true := by decide
example : contentIgnores [] [] [".git".toList, "config".toList] = true := by decide
example : treeIgnores [] [] [".git".toList] = true := by decide
example : contentIgnores [] [] [".git".toList] = false := by decide
example : contentIgnores [] ["*.md".toList] ["a.md".toList] = true := by decide
example :
    contentIgnores [] ["*.md".toList, "!a.md".toList] ["a.md".toList] = false := by
  decide
example : treeIgnores ["build/".toList] [] ["build".toList] = false := by decide
example :
    treeIgnores ["build/".toList] [] ["build".toList, "x.o".toList] = true := by
  decide

/-! ## Tree Renderer (`listDirectoryTree`, `generateTreeStructure`)

The filesystem below the workspace root is modelled as a forest of named
nodes in `readdirSync` order.  `generateTreeStructure` changes the working
directory to the workspace root before listing, so the paths tested against
the ignore filter are exactly the workspace-root-relative segment lists
accumulated during recursion. -/

inductive FsNode where
  | file (nm : Str)
  | dir (nm : Str) (children : List FsNode)
deriving Repr

def nodeName : FsNode → Str
  | .file nm => nm
  | .dir nm _ => nm

/-- `statSync(...).isDirectory()`. -/
def nodeIsDir : FsNode → Bool
  | .file _ => false
  | .dir _ _ => true

/-- Case-insensitive lexicographic "less or equal" on names; model of
`a.localeCompare(b, undefined, { sensitivity: 'base' }) ≤ 0` for the ASCII
names case (locale tailoring beyond case folding is not modelled). -/
def strLeCI : Str → Str → Bool
  | [], _ => true
  | _ :: _, [] => false
  | a :: as, b :: bs =>
    if a.toLower = b.toLower then strLeCI as bs
    else decide (a.toLower < b.toLower)

/-- The sort comparator of `listDirectoryTree` as a boolean `le`:
directories sort before files, and within a kind the order is
case-insensitive lexicographic.  Node's sort is stable, so sorting with
this total preorder models `visibleItems.sort(...)`. -/
def nodeLe (a b : FsNode) : Bool :=
  match nodeIsDir a, nodeIsDir b with
  | true, false => true
  | false, true => false
  | _, _ => strLeCI (nodeName a) (nodeName b)

/-- The visible, sorted children of one directory: filter out entries whose
workspace-relative path is ignored, then sort with the comparator. -/
def visibleSorted (rules : List IgnoreRule) (pathAcc : List Str)
    (children : List FsNode) : List FsNode :=
  (children.filter
    (fun c => !cascadeIgnores rules [] (pathAcc ++ [nodeName c]))).mergeSort nodeLe

theorem sizeOf_le_of_sublist {l₁ l₂ : List FsNode} (h : List.Sublist l₁ l₂) :
    sizeOf l₁ ≤ sizeOf l₂ := by
  induction h with
  | slnil => exact Nat.le_refl _
  | cons a _ ih => simp only [List.cons.sizeOf_spec]; omega
  | cons₂ a _ ih => simp only [List.cons.sizeOf_spec]; omega

theorem sizeOf_visibleSorted_le (rules : List IgnoreRule) (pathAcc : List Str)
    (children : List FsNode) :
    sizeOf (visibleSorted rules pathAcc children) ≤ sizeOf children := by
  have h1 := (List.mergeSort_perm
    (children.filter
      (fun c => !cascadeIgnores rules [] (pathAcc ++ [nodeName c]))) nodeLe).sizeOf_eq_sizeOf
  have h2 := sizeOf_le_of_sublist
    (List.filter_sublist
      (p := fun c => !cascadeIgnores rules [] (pathAcc ++ [nodeName c])) children)
  simp only [visibleSorted]
  omega

mutual

/-- `listDirectoryTree` from `utils.ts`: list children, drop ignored
entries, sort, and render each entry with a branch marker, recursing into
directories.  `pathAcc` is the workspace-relative path of the directory
being listed. -/
def listDirectoryTree (rules : List IgnoreRule) (pathAcc : List Str)
    (pre : Str) (children : List FsNode) : List Str :=
  renderItems rules pathAcc pre (visibleSorted rules pathAcc children)
termination_by 2 * sizeOf children + 1
decreasing_by
  have := sizeOf_visibleSorted_le rules pathAcc children
  omega

/-- The `visibleItems.forEach((item, index) => ...)` loop body:
`index === visibleItems.length - 1` holds exactly when the rest of the
list is empty. -/
def renderItems (rules : List IgnoreRule) (pathAcc : List Str) (pre : Str) :
    List FsNode → List Str
  | [] => []
  | .file nm :: rest =>
    (pre ++ (if rest.isEmpty then "└── ".toList else "├── ".toList) ++ nm) ::
      renderItems rules pathAcc pre rest
  | .dir nm cs :: rest =>
    (pre ++ (if rest.isEmpty then "└── ".toList else "├── ".toList) ++ nm) ::
      (listDirectoryTree rules (pathAcc ++ [nm])
          (pre ++ (if rest.isEmpty then "    ".toList else "│   ".toList)) cs ++
        renderItems rules pathAcc pre rest)
termination_by l => 2 * sizeOf l
decreasing_by
  all_goals simp only [List.cons.sizeOf_spec, FsNode.dir.sizeOf_spec,
    FsNode.file.sizeOf_spec]
  all_goals omega

end

/-- `generateTreeStructure` from `utils.ts` on an error-free filesystem: the
tree-layer ignore filter, then `listDirectoryTree(repoPath, '', filter)`
joined with newlines plus a trailing newline.  (The catch-all that returns
an empty string on a thrown filesystem error is outside this model.) -/
def generateTreeStructure (gitignoreLines callerPatterns : List Str)
    (root : List FsNode) : Str :=
  (List.intercalate ['\n']
    (listDirectoryTree
      ((treeLayerPatterns gitignoreLines callerPatterns).filterMap parsePattern)
      [] [] root)) ++ ['\n']

/-! ## Content Extractor (`isBinaryFile`, `extractRepositoryContent`) -/

/-- One file discovered by `glob('**/*', { nodir: true })`, together with
the environment's responses to the two reads the source performs on it. -/
structure FileEntry where
  /-- Workspace-relative path segments (`path.relative(repoPath, file)`). -/
  segs : List Str
  /-- The file's raw bytes. -/
  bytes : List Nat
  /-- Whether `openSync`/`readSync` of the 512-byte probe succeeds. -/
  probeOk : Bool
  /-- `readFileSync(file, 'utf-8')`: the decoded text, or `none` when the
  read throws. -/
  text : Option Str

/-- `isBinaryFile` from `utils.ts`: nulls among the first
`min(512, size)` bytes mean binary; any probe error means "not binary". -/
def isBinaryFile (f : FileEntry) : Bool :=
  if f.probeOk then (f.bytes.take 512).any (· == 0) else false

/-- `path.relative` output: segments joined with `/`. -/
def joinSegs (segs : List Str) : Str := List.intercalate ['/'] segs

/-- The body of the `for (const file of files)` loop in
`extractRepositoryContent`: the section this file contributes to
`contentParts`, or `none` when it is skipped (ignored, binary, or its
content read throws). -/
def processFile (rules : List IgnoreRule) (f : FileEntry) : Option Str :=
  if cascadeIgnores rules [] f.segs then none
  else if isBinaryFile f then none
  else f.text.map
    (fun t => "File: ".toList ++ joinSegs f.segs ++ ['\n'] ++ t ++ ['\n'])

/-- The `content` component returned by `extractRepositoryContent` from
`utils.ts` (the `tree` component is `generateTreeStructure` above):
guard that the workspace exists, then join the per-file sections with
blank-line separators. -/
def extractRepositoryContent (repoPath : Str) (repoExists : Bool)
    (gitignoreLines callerPatterns : List Str) (files : List FileEntry) :
    Except Str Str :=
  if !repoExists then
    .error ("Repository path does not exist: ".toList ++ repoPath)
  else
    .ok (List.intercalate ['\n']
      (files.filterMap
        (processFile
          ((contentLayerPatterns gitignoreLines callerPatterns).filterMap
            parsePattern))))

/-! ## Disk Space Guard (`getAvailableDiskSpace`, `hasEnoughDiskSpace`)

JS numbers that can be `NaN` are modelled as `Option Nat` with `none` for
`NaN`; every `NaN` comparison is false. -/

/-- JS `parseInt(s, 10)` restricted to the shapes produced here: skip
leading whitespace, read a run of decimal digits, `NaN` when there is
none.  (Sign characters never occur in `df -B1` output or in HTTP
content-length headers, and are not modelled.) -/
def jsParseInt (s : Str) : Option Nat :=
  let t := s.dropWhile (fun c => c = ' ' || c = '\t' || c = '\n' || c = '\r')
  let ds := t.takeWhile Char.isDigit
  if ds.isEmpty then none
  else some (ds.foldl (fun a c => a * 10 + (c.toNat - '0'.toNat)) 0)

def isWsChar (c : Char) : Bool :=
  c = ' ' || c = '\t' || c = '\n' || c = '\r'

/-- JS `s.split(/\s+/)`: maximal whitespace runs separate the fields (a
leading run contributes a leading empty field, a trailing run a trailing
one).  Single left-to-right pass; the state is (finished fields, current
field reversed, currently inside a separator run). -/
def jsSplitWs (l : Str) : List Str :=
  let fin := l.foldl
    (fun acc c =>
      if isWsChar c then
        if acc.2.2 then acc
        else (acc.1 ++ [acc.2.1.reverse], [], true)
      else (acc.1, c :: acc.2.1, false))
    (([], [], false) : List Str × Str × Bool)
  fin.1 ++ [fin.2.1.reverse]

/-- `getAvailableDiskSpace` from `utils.ts`, as a function of the outcome
of `execSync('df -B1 ...')` (`none` = the command threw).  The result is
the JS number returned: `some 0` on a thrown command or a short output,
the parsed fourth field otherwise (`none` = `NaN`, from a missing field or
an unparsable one). -/
def getAvailableDiskSpace (dfOutcome : Option Str) : Option Nat :=
  match dfOutcome with
  | none => some 0
  | some out =>
    let lines := splitChar '\n' out
    if lines.length < 2 then some 0
    else
      match (jsSplitWs (lines.getD 1 [])).get? 3 with
      | none => none
      | some f => jsParseInt f

/-- `hasEnoughDiskSpace` from `utils.ts`:
`getAvailableDiskSpace(os.tmpdir()) >= requiredSpace * 2`, where either
side being `NaN` makes the comparison false. -/
def hasEnoughDiskSpace (requiredSpace : Option Nat) (dfOutcome : Option Str) : Bool :=
  match getAvailableDiskSpace dfOutcome, requiredSpace with
  | some avail, some req => decide (avail ≥ req * 2)
  | _, _ => false

/-! ## Archive Fetcher (`downloadFile`, `getDefaultBranch`,
`getZipDownloadUrl`, `cloneRepository`) -/

/-- The `fetch` response as `downloadFile` observes it. -/
structure HttpResponse where
  ok : Bool
  statusText : Str
  /-- `response.headers.get('content-length')`, `none` when absent. -/
  contentLengthHeader : Option Str
  /-- `response.body?.getReader()`: the stream's chunks, `none` when there
  is no body reader. -/
  body : Option (List (List Nat))

def MAX_DOWNLOAD_SIZE : Nat := 1024 * 1024 * 1024

/-- The declared content length computed by `downloadFile`:
`parseInt(response.headers.get('content-length') || '0', 10)` (both a
missing header and an empty one are falsy and default to `'0'`). -/
def declaredLength (resp : HttpResponse) : Option Nat :=
  jsParseInt
    (match resp.contentLengthHeader with
     | none => "0".toList
     | some h => if h.isEmpty then "0".toList else h)

/-- `downloadFile` from `utils.ts`.  Returns the outcome together with the
chunks written to the target file; every rejecting branch happens before
`createWriteStream`, so a rejection carries an empty write list. -/
def downloadFile (resp : HttpResponse) (dfOutcome : Option Str) :
    Except Str Unit × List (List Nat) :=
  if !resp.ok then
    (.error ("Failed to download file: ".toList ++ resp.statusText), [])
  else
    let contentLength := declaredLength resp
    let tooBig :=
      match contentLength with
      | some n => decide (n > MAX_DOWNLOAD_SIZE)
      | none => false
    if tooBig then
      (.error ("Repository size exceeds maximum allowed size of 1GB".toList), [])
    else if !hasEnoughDiskSpace contentLength dfOutcome then
      (.error ("Not enough disk space available for download".toList), [])
    else
      match resp.body with
      | none => (.error ("Failed to get response reader".toList), [])
      | some chunks => (.ok (), chunks)

/-- The regexes of `getDefaultBranch` and `getZipDownloadUrl`:
`^https://<host>/([^/]+)/([^/]+)(\.git)?$`.  The greedy `([^/]+)` for the
repo consumes any trailing `.git` (restored by `replace(/\.git$/, '')` at
the call sites), so the match captures the owner and the rest of the URL,
which must be a single, non-empty segment. -/
def repoApiMatch (hostPre : Str) (url : Str) : Option (Str × Str) :=
  match dropPre hostPre url with
  | none => none
  | some r =>
    let owner := takeSeg '/' r
    if owner = [] then none else
    match dropSeg '/' r with
    | '/' :: r2 => if !r2.isEmpty && r2.all (· ≠ '/') then some (owner, r2) else none
    | _ => none

/-- Environment responses consumed by `cloneRepository` and its callees. -/
structure CloneEnv where
  /-- Outcome of the GitHub metadata API lookup: the default branch, or
  the message of the error thrown on a non-ok response. -/
  ghBranch : Except Str Str
  /-- Outcome of the GitLab metadata API lookup. -/
  glBranch : Except Str Str
  /-- Whether `downloadFile` resolves. -/
  downloadOk : Bool
  /-- Message of the error `downloadFile` rejects with. -/
  downloadErr : Str
  /-- Whether the archive file had been created (the write stream opened)
  when `downloadFile` rejected. -/
  downloadWroteFile : Bool
  /-- Whether the unzip stream emits `close` (as opposed to `error`). -/
  extractOk : Bool
  /-- Message of the unzip `error` event. -/
  extractErr : Str

/-- `getDefaultBranch` from `utils.ts`, with the provider API modelled by
the environment. -/
def getDefaultBranch (url : Str) (env : CloneEnv) : Except Str Str :=
  if (repoApiMatch ghHost url).isSome then env.ghBranch
  else if (repoApiMatch glHost url).isSome then env.glBranch
  else .error ("Unsupported repository URL format".toList)

/-- `getZipDownloadUrl` from `utils.ts`: resolve the branch (querying the
provider when absent), then build the provider's archive URL. -/
def getZipDownloadUrl (url : Str) (branch : Option Str) (env : CloneEnv) :
    Except Str Str :=
  match (match branch with
         | some b => Except.ok b
         | none => getDefaultBranch url env) with
  | .error e => .error e
  | .ok b =>
    match repoApiMatch ghHost url with
    | some (o, r) =>
      .ok (ghHost ++ o ++ ['/'] ++ stripGitSuffix r ++ "/archive/".toList ++
        b ++ ".zip".toList)
    | none =>
      match repoApiMatch glHost url with
      | some (o, r) =>
        .ok (glHost ++ o ++ ['/'] ++ stripGitSuffix r ++ "/-/archive/".toList ++
          b ++ ['/'] ++ stripGitSuffix r ++ ['-'] ++ b ++ ".zip".toList)
      | none => .error ("Unsupported repository URL format".toList)

/-- Scratch artifacts of `cloneRepository` still on disk when it settles. -/
structure CloneResult where
  result : Except Str Unit
  /-- Whether the downloaded archive file (`tmpdir/repo-<hex>.zip`) still
  exists. -/
  archiveExists : Bool
  /-- Whether the scratch extraction directory (`targetDir/extracted`)
  still exists. -/
  extractDirExists : Bool
deriving Repr

/-- The catch-all wrapper of `cloneRepository`. -/
def cloneWrap (e : Str) : Str :=
  "Failed to download and extract repository: ".toList ++ e

/-- `cloneRepository` from `utils.ts`: build the archive URL, download the
archive, unzip into `targetDir/extracted`, move the single wrapper folder's
contents up.  Only the `close` handler of the successful extraction removes
the scratch directory (`rmSync`) and the archive (`unlinkSync`); the error
paths re-throw the wrapped error without removing anything. -/
def cloneRepository (info : GitUrlInfo) (env : CloneEnv) : CloneResult :=
  match getZipDownloadUrl info.url info.branch env with
  | .error e => ⟨.error (cloneWrap e), false, false⟩
  | .ok _zipUrl =>
    if env.downloadOk then
      if env.extractOk then ⟨.ok (), false, false⟩
      else ⟨.error (cloneWrap env.extractErr), true, true⟩
    else ⟨.error (cloneWrap env.downloadErr), env.downloadWroteFile, false⟩

/-! # Helper lemmas on the string primitives -/

theorem dropPre_self_append (p t : Str) : dropPre p (p ++ t) = some t := by
  induction p with
  | nil => rfl
  | cons c ps ih => simp [dropPre, ih]

theorem dropPre_append_both (p q l : Str) :
    dropPre (p ++ q) (p ++ l) = dropPre q l := by
  induction p with
  | nil => rfl
  | cons c ps ih => simp [dropPre, ih]

theorem eq_append_of_dropPre {p l t : Str} (h : dropPre p l = some t) :
    l = p ++ t := by
  induction p generalizing l with
  | nil =>
    simp only [dropPre, Option.some.injEq] at h
    simp [h]
  | cons c ps ih =>
    cases l with
    | nil => simp [dropPre] at h
    | cons d ls =>
      simp only [dropPre] at h
      split at h
      · next hd => subst hd; simpa using ih h
      · exact absurd h (by simp)

theorem dropPre_append_of_le {p l₁ : Str} (rest : Str) (h : p.length ≤ l₁.length) :
    dropPre p (l₁ ++ rest) = (dropPre p l₁).map (· ++ rest) := by
  induction p generalizing l₁ with
  | nil => simp [dropPre]
  | cons c ps ih =>
    cases l₁ with
    | nil => simp at h
    | cons d ls =>
      simp only [List.cons_append, dropPre]
      split
      · exact ih (Nat.le_of_succ_le_succ h)
      · rfl

theorem takeSeg_append_sep (sep : Char) {a : Str} (t : Str)
    (ha : ∀ x ∈ a, x ≠ sep) : takeSeg sep (a ++ sep :: t) = a := by
  induction a with
  | nil => simp [takeSeg]
  | cons x xs ih =>
    have hx : x ≠ sep := ha x (by simp)
    have ih' := ih (fun y hy => ha y (by simp [hy]))
    simp only [takeSeg, ne_eq, decide_not] at ih' ⊢
    simp [List.takeWhile_cons, hx, ih']

theorem dropSeg_append_sep (sep : Char) {a : Str} (t : Str)
    (ha : ∀ x ∈ a, x ≠ sep) : dropSeg sep (a ++ sep :: t) = sep :: t := by
  induction a with
  | nil => simp [dropSeg]
  | cons x xs ih =>
    have hx : x ≠ sep := ha x (by simp)
    have ih' := ih (fun y hy => ha y (by simp [hy]))
    simp only [dropSeg, ne_eq, decide_not] at ih' ⊢
    simp [List.dropWhile_cons, hx, ih']

theorem takeSeg_of_no_sep (sep : Char) {a : Str} (ha : ∀ x ∈ a, x ≠ sep) :
    takeSeg sep a = a := by
  simp only [takeSeg]
  rw [List.takeWhile_eq_self_iff]
  intro y hy
  simpa using ha y hy

theorem dropSeg_of_no_sep (sep : Char) {a : Str} (ha : ∀ x ∈ a, x ≠ sep) :
    dropSeg sep a = [] := by
  simp only [dropSeg]
  rw [List.dropWhile_eq_nil_iff]
  intro y hy
  simpa using ha y hy

theorem sep_split_unique {sep : Char} {a b x y : Str}
    (hna : sep ∉ a) (hnb : sep ∉ b) (h : a ++ sep :: x = b ++ sep :: y) :
    a = b ∧ x = y := by
  induction a generalizing b with
  | nil =>
    cases b with
    | nil => simpa using h
    | cons e b' =>
      simp only [List.nil_append, List.cons_append, List.cons.injEq] at h
      exact absurd (h.1 ▸ List.mem_cons_self e b') (h.1 ▸ hnb)
  | cons c a' ih =>
    cases b with
    | nil =>
      simp only [List.cons_append, List.nil_append, List.cons.injEq] at h
      exact absurd (h.1 ▸ List.mem_cons_self c a') (h.1 ▸ hna)
    | cons e b' =>
      simp only [List.cons_append, List.cons.injEq] at h
      obtain ⟨rfl, h2⟩ := h
      have := ih (fun hm => hna (List.mem_cons_of_mem _ hm))
        (fun hm => hnb (List.mem_cons_of_mem _ hm)) h2
      exact ⟨by rw [this.1], this.2⟩

/-! # Helper lemmas for the URL Normalizer -/

theorem matchBrowse_none {hostPre url : Str} (tm : Str)
    (h : dropPre hostPre url = none) : matchBrowse hostPre tm url = none := by
  simp [matchBrowse, h]

theorem dropPre_ghHost_glHost (t : Str) : dropPre ghHost (glHost ++ t) = none := by
  rw [dropPre_append_of_le t (by decide)]
  rw [show dropPre ghHost glHost = none from by decide]
  rfl

theorem dropPre_glHost_ghHost (t : Str) : dropPre glHost (ghHost ++ t) = none := by
  rw [dropPre_append_of_le t (by decide)]
  rw [show dropPre glHost ghHost = none from by decide]
  rfl

theorem matchBrowse_no_branch (hostPre : Str) (c : Char) (cs : Str) {o r : Str}
    (ho : o ≠ []) (ho' : ∀ x ∈ o, x ≠ '/') (hr : r ≠ []) (hr' : ∀ x ∈ r, x ≠ '/') :
    matchBrowse hostPre (c :: cs) (hostPre ++ o ++ ['/'] ++ r) = some (o, r, none) := by
  have e : hostPre ++ o ++ ['/'] ++ r = hostPre ++ (o ++ '/' :: r) := by
    simp [List.append_assoc]
  simp only [matchBrowse, e, dropPre_self_append,
    takeSeg_append_sep '/' r ho', dropSeg_append_sep '/' r ho', if_neg ho,
    takeSeg_of_no_sep '/' hr', dropSeg_of_no_sep '/' hr', if_neg hr, dropPre]

theorem matchBrowse_branch (hostPre tmTail : Str) {o r b : Str}
    (ho : o ≠ []) (ho' : ∀ x ∈ o, x ≠ '/') (hr : r ≠ []) (hr' : ∀ x ∈ r, x ≠ '/')
    (hb : b ≠ []) (hb' : ∀ x ∈ b, x ≠ '/') :
    matchBrowse hostPre ('/' :: tmTail)
      (hostPre ++ o ++ ['/'] ++ r ++ ('/' :: tmTail) ++ b) = some (o, r, some b) := by
  have e : hostPre ++ o ++ ['/'] ++ r ++ ('/' :: tmTail) ++ b =
      hostPre ++ (o ++ '/' :: (r ++ '/' :: (tmTail ++ b))) := by
    simp [List.append_assoc]
  have e2 : ('/' : Char) :: (tmTail ++ b) = ('/' :: tmTail) ++ b := rfl
  simp only [matchBrowse, e, dropPre_self_append,
    takeSeg_append_sep '/' _ ho', dropSeg_append_sep '/' _ ho', if_neg ho,
    takeSeg_append_sep '/' _ hr', dropSeg_append_sep '/' _ hr', if_neg hr]
  rw [e2, dropPre_self_append]
  simp only [takeSeg_of_no_sep '/' hb', if_neg hb]

/-- C2: for every recognized GitHub or GitLab browse URL (owner, repo and
branch are arbitrary non-empty separator-free segments), `convertUrlToGitUrl`
returns the canonical `https://<host>/<owner>/<repo'>.git` URL where `repo'`
is the repo segment with a trailing `.git` stripped, together with the
branch exactly when the input carries a tree segment. -/
theorem claim_C2_url_normalizer (o r b : Str)
    (ho : o ≠ []) (ho' : ∀ x ∈ o, x ≠ '/')
    (hr : r ≠ []) (hr' : ∀ x ∈ r, x ≠ '/')
    (hb : b ≠ []) (hb' : ∀ x ∈ b, x ≠ '/') :
    (convertUrlToGitUrl (ghHost ++ o ++ ['/'] ++ r) =
        ⟨ghHost ++ o ++ ['/'] ++ stripGitSuffix r ++ ".git".toList, none⟩)
  ∧ (convertUrlToGitUrl (ghHost ++ o ++ ['/'] ++ r ++ "/tree/".toList ++ b) =
        ⟨ghHost ++ o ++ ['/'] ++ stripGitSuffix r ++ ".git".toList, some b⟩)
  ∧ (convertUrlToGitUrl (glHost ++ o ++ ['/'] ++ r) =
        ⟨glHost ++ o ++ ['/'] ++ stripGitSuffix r ++ ".git".toList, none⟩)
  ∧ (convertUrlToGitUrl (glHost ++ o ++ ['/'] ++ r ++ "/-/tree/".toList ++ b) =
        ⟨glHost ++ o ++ ['/'] ++ stripGitSuffix r ++ ".git".toList, some b⟩) := by
  refine ⟨?_, ?_, ?_, ?_⟩
  · simp only [convertUrlToGitUrl,
      show "/tree/".toList = '/' :: "tree/".toList from by decide,
      matchBrowse_no_branch ghHost '/' ("tree/".toList) ho ho' hr hr']
  · simp only [convertUrlToGitUrl,
      show "/tree/".toList = '/' :: "tree/".toList from by decide,
      matchBrowse_branch ghHost ("tree/".toList) ho ho' hr hr' hb hb']
  · have e : glHost ++ o ++ ['/'] ++ r = glHost ++ (o ++ '/' :: r) := by
      simp [List.append_assoc]
    have hgh : matchBrowse ghHost ("/tree/".toList) (glHost ++ o ++ ['/'] ++ r) = none := by
      rw [e]; exact matchBrowse_none _ (dropPre_ghHost_glHost _)
    simp only [convertUrlToGitUrl, hgh,
      show "/-/tree/".toList = '/' :: "-/tree/".toList from by decide,
      matchBrowse_no_branch glHost '/' ("-/tree/".toList) ho ho' hr hr']
  · have e : glHost ++ o ++ ['/'] ++ r ++ "/-/tree/".toList ++ b =
        glHost ++ (o ++ '/' :: (r ++ "/-/tree/".toList ++ b)) := by
      simp [List.append_assoc]
    have hgh : matchBrowse ghHost ("/tree/".toList)
        (glHost ++ o ++ ['/'] ++ r ++ "/-/tree/".toList ++ b) = none := by
      rw [e]; exact matchBrowse_none _ (dropPre_ghHost_glHost _)
    simp only [convertUrlToGitUrl, hgh]
    simp only [show "/-/tree/".toList = '/' :: "-/tree/".toList from by decide,
      matchBrowse_branch glHost ("-/tree/".toList) ho ho' hr hr' hb hb']

/-- C8: `hasEnoughDiskSpace` succeeds exactly when the probed available
space is at least twice the requirement; a failed `df` probe counts as
zero available bytes, so any positive requirement then fails closed. -/
theorem claim_C8_disk_space_guard (req : Nat) (dfOutcome : Option Str) :
    (∀ a, getAvailableDiskSpace dfOutcome = some a →
       (hasEnoughDiskSpace (some req) dfOutcome = true ↔ a ≥ req * 2))
  ∧ getAvailableDiskSpace none = some 0
  ∧ (0 < req → hasEnoughDiskSpace (some req) none = false) := by
  refine ⟨?_, rfl, ?_⟩
  · intro a ha
    simp [hasEnoughDiskSpace, ha]
  · intro hreq
    simp only [hasEnoughDiskSpace, getAvailableDiskSpace]
    simp only [decide_eq_true_eq, decide_eq_false_iff_not]
    omega

/-- Witness for C8: a `df` output advertising 10 available bytes, and the
fail-closed branch for a positive requirement. -/
theorem claim_C8_disk_space_guard_witness :
    (hasEnoughDiskSpace (some 5) (some ("header\n/dev/sda1 100 90 10".toList)) = true ↔
       10 ≥ 5 * 2)
  ∧ (0 < 5 → hasEnoughDiskSpace (some 5) none = false) :=
  ⟨(claim_C8_disk_space_guard 5 (some ("header\n/dev/sda1 100 90 10".toList))).1 10
      (by decide),
    (claim_C8_disk_space_guard 5 none).2.2⟩

/-- C4: for an ok response with declared content length `n`, `downloadFile`
rejects before creating the write stream (so with no bytes written)
whenever `n` exceeds the 1 GiB cap (`2 ^ 30` bytes) or the probed available
space is below `2 * n`. -/
theorem claim_C4_download_guards (resp : HttpResponse) (dfOutcome : Option Str)
    (n : Nat) (hok : resp.ok = true) (hn : declaredLength resp = some n)
    (hrej : n > MAX_DOWNLOAD_SIZE ∨
      (∀ a, getAvailableDiskSpace dfOutcome = some a → a < n * 2)) :
    MAX_DOWNLOAD_SIZE = 2 ^ 30
  ∧ (downloadFile resp dfOutcome).2 = []
  ∧ ∃ e, (downloadFile resp dfOutcome).1 = Except.error e := by
  refine ⟨by decide, ?_⟩
  by_cases hbig : n > MAX_DOWNLOAD_SIZE
  · have : downloadFile resp dfOutcome =
        (.error ("Repository size exceeds maximum allowed size of 1GB".toList), []) := by
      simp [downloadFile, hok, hn, hbig]
    rw [this]
    exact ⟨rfl, _, rfl⟩
  · have hre := hrej.resolve_left hbig
    have hse : hasEnoughDiskSpace (some n) dfOutcome = false := by
      unfold hasEnoughDiskSpace
      cases hha : getAvailableDiskSpace dfOutcome with
      | none => rfl
      | some a =>
        have := hre a hha
        simp only [decide_eq_false_iff_not]
        omega
    have : downloadFile resp dfOutcome =
        (.error ("Not enough disk space available for download".toList), []) := by
      simp [downloadFile, hok, hn, hbig, hse]
    rw [this]
    exact ⟨rfl, _, rfl⟩

/-- Witness for C4: the claim's 2 GiB scenario — declared size 2147483648
bytes aborts with no bytes written. -/
theorem claim_C4_download_guards_witness :
    declaredLength ⟨true, [], some ("2147483648".toList), some [[1]]⟩ =
      some 2147483648
  ∧ (downloadFile ⟨true, [], some ("2147483648".toList), some [[1]]⟩ none).2 = []
  ∧ ∃ e, (downloadFile ⟨true, [], some ("2147483648".toList), some [[1]]⟩
      none).1 = Except.error e := by
  have h := claim_C4_download_guards ⟨true, [], some ("2147483648".toList), some [[1]]⟩
    none 2147483648 rfl (by decide) (Or.inl (by decide))
  exact ⟨by decide, h.2.1, h.2.2⟩

/-- Counterexample to C9 as stated: with no Content-Length header the
declared length is 0, yet the disk-space check still rejects the download
when the `df` probe yields a non-numeric available field (`NaN`), e.g. a
two-line output whose second line has fewer than four fields. -/
theorem claim_C9_counterexample :
    declaredLength ⟨true, [], none, some [[7]]⟩ = some 0
  ∧ downloadFile ⟨true, [], none, some [[7]]⟩ (some ("x\ny".toList)) =
      (.error ("Not enough disk space available for download".toList), []) :=
  ⟨by decide, rfl⟩

/-- C9 (amended): with no Content-Length header the declared length is
parsed as 0, so the size cap cannot reject and the disk-space check
passes whenever the probed available space is a number (including the 0
substituted after a failed probe); the body is then streamed in full,
regardless of its actual size. -/
theorem claim_C9_no_header_streams (resp : HttpResponse) (dfOutcome : Option Str)
    (chunks : List (List Nat)) (a : Nat)
    (hok : resp.ok = true) (hh : resp.contentLengthHeader = none)
    (hb : resp.body = some chunks)
    (ha : getAvailableDiskSpace dfOutcome = some a) :
    declaredLength resp = some 0
  ∧ downloadFile resp dfOutcome = (.ok (), chunks) := by
  have hd : declaredLength resp = some 0 := by
    rw [declaredLength, hh]
    decide
  refine ⟨hd, ?_⟩
  have hse : hasEnoughDiskSpace (some 0) dfOutcome = true := by
    simp [hasEnoughDiskSpace, ha]
  simp [downloadFile, hok, hd, hse, hb, MAX_DOWNLOAD_SIZE]

/-- Witness for C9 (amended): a header-less ok response over a failed `df`
probe streams its two chunks. -/
theorem claim_C9_no_header_streams_witness :
    declaredLength ⟨true, [], none, some [[1], [2]]⟩ = some 0
  ∧ downloadFile ⟨true, [], none, some [[1], [2]]⟩ none =
      (.ok (), [[1], [2]]) :=
  claim_C9_no_header_streams ⟨true, [], none, some [[1], [2]]⟩ none [[1], [2]] 0
    rfl rfl rfl (by decide)

/-! # Helper lemmas for the Tree Renderer -/

/-- The branch marker of the entry at index `i` among `n` siblings. -/
def markerFor (i n : Nat) : Str :=
  if i = n - 1 then "└── ".toList else "├── ".toList

theorem strLeCI_total : ∀ a b : Str, (strLeCI a b || strLeCI b a) = true := by
  intro a
  induction a with
  | nil => intro b; simp [strLeCI]
  | cons x xs ih =>
    intro b
    cases b with
    | nil => simp [strLeCI]
    | cons y ys =>
      simp only [strLeCI]
      by_cases hxy : x.toLower = y.toLower
      · rw [if_pos hxy, if_pos hxy.symm]
        exact ih ys
      · rw [if_neg hxy, if_neg (fun hh => hxy hh.symm)]
        rcases lt_trichotomy x.toLower y.toLower with hlt | heq | hgt
        · simp [hlt]
        · exact absurd heq hxy
        · simp [hgt]

theorem strLeCI_trans : ∀ a b c : Str, strLeCI a b = true → strLeCI b c = true →
    strLeCI a c = true := by
  intro a
  induction a with
  | nil => intro b c _ _; rfl
  | cons x xs ih =>
    intro b c h1 h2
    cases b with
    | nil => simp [strLeCI] at h1
    | cons y ys =>
      cases c with
      | nil => simp [strLeCI] at h2
      | cons z zs =>
        simp only [strLeCI] at h1 h2 ⊢
        by_cases hxy : x.toLower = y.toLower
        · rw [if_pos hxy] at h1
          by_cases hyz : y.toLower = z.toLower
          · rw [if_pos hyz] at h2
            rw [if_pos (hxy.trans hyz)]
            exact ih ys zs h1 h2
          · rw [if_neg hyz] at h2
            have hyz' : y.toLower < z.toLower := of_decide_eq_true h2
            have hxz : x.toLower < z.toLower := by rw [hxy]; exact hyz'
            rw [if_neg (ne_of_lt hxz)]
            exact decide_eq_true hxz
        · rw [if_neg hxy] at h1
          have hxy' : x.toLower < y.toLower := of_decide_eq_true h1
          by_cases hyz : y.toLower = z.toLower
          · rw [if_pos hyz] at h2
            have hxz : x.toLower < z.toLower := by rw [← hyz]; exact hxy'
            rw [if_neg (ne_of_lt hxz)]
            exact decide_eq_true hxz
          · rw [if_neg hyz] at h2
            have hyz' : y.toLower < z.toLower := of_decide_eq_true h2
            have hxz := lt_trans hxy' hyz'
            rw [if_neg (ne_of_lt hxz)]
            exact decide_eq_true hxz

theorem nodeLe_trans : ∀ (a b c : FsNode),
    nodeLe a b → nodeLe b c → nodeLe a c := by
  intro a b c h1 h2
  cases a <;> cases b <;> cases c <;>
    simp only [nodeLe, nodeIsDir] at h1 h2 ⊢ <;>
    first
      | rfl
      | exact h1
      | exact h2
      | exact strLeCI_trans _ _ _ h1 h2
      | simp at h1
      | simp at h2

theorem nodeLe_total : ∀ (a b : FsNode), (nodeLe a b || nodeLe b a) = true := by
  intro a b
  cases a <;> cases b <;> simp only [nodeLe, nodeIsDir] <;>
    first
      | rfl
      | exact strLeCI_total _ _

theorem nodeLe_spec {a b : FsNode} (h : nodeLe a b = true) :
    (nodeIsDir b = true → nodeIsDir a = true) ∧
    (nodeIsDir a = nodeIsDir b → strLeCI (nodeName a) (nodeName b) = true) := by
  cases a with
  | file nm1 =>
    cases b with
    | file nm2 =>
      exact ⟨fun hh => hh, fun _ => by simpa [nodeLe, nodeIsDir] using h⟩
    | dir nm2 cs2 =>
      simp [nodeLe, nodeIsDir] at h
  | dir nm1 cs1 =>
    cases b with
    | file nm2 =>
      refine ⟨fun _ => rfl, fun hh => ?_⟩
      exact absurd hh (by simp [nodeIsDir])
    | dir nm2 cs2 =>
      exact ⟨fun _ => rfl, fun _ => by simpa [nodeLe, nodeIsDir] using h⟩

/-- The sorted visible children of any directory are pairwise ordered:
directories never follow files, and within a kind the case-insensitive
order holds. -/
theorem visibleSorted_pairwise (rules : List IgnoreRule) (pathAcc : List Str)
    (children : List FsNode) :
    List.Pairwise (fun a b =>
      (nodeIsDir b = true → nodeIsDir a = true) ∧
      (nodeIsDir a = nodeIsDir b → strLeCI (nodeName a) (nodeName b) = true))
      (visibleSorted rules pathAcc children) := by
  have hs := List.sorted_mergeSort nodeLe_trans nodeLe_total
    (children.filter (fun c => !cascadeIgnores rules [] (pathAcc ++ [nodeName c])))
  exact List.Pairwise.imp (fun hle => nodeLe_spec hle) hs

/-- Every visible entry's own line appears in the rendered block with the
marker determined by its position: `└── ` for the last sibling, `├── `
otherwise. -/
theorem renderItems_mem (rules : List IgnoreRule) (pathAcc : List Str)
    (pre : Str) :
    ∀ (l : List FsNode) (i : Nat) (h : i < l.length),
      (pre ++ markerFor i l.length ++ nodeName (l.get ⟨i, h⟩)) ∈
        renderItems rules pathAcc pre l := by
  intro l
  induction l with
  | nil => intro i h; exact absurd h (by simp)
  | cons x rest ih =>
    intro i h
    cases i with
    | zero =>
      have hm : markerFor 0 (x :: rest).length =
          (if rest.isEmpty then "└── ".toList else "├── ".toList) := by
        rw [markerFor]
        rcases rest with _ | ⟨y, ys⟩
        · simp
        · simp [List.length_cons]
      cases x with
      | file nm =>
        simp only [renderItems, List.length_cons] at hm ⊢
        rw [hm]
        exact List.mem_cons_self _ _
      | dir nm cs =>
        simp only [renderItems, List.length_cons] at hm ⊢
        rw [hm]
        exact List.mem_cons_self _ _
    | succ j =>
      have hj : j < rest.length := by simpa using h
      have hm : markerFor (j + 1) (x :: rest).length = markerFor j rest.length := by
        rw [markerFor, markerFor, List.length_cons]
        have hiff : (j + 1 = rest.length + 1 - 1) ↔ (j = rest.length - 1) := by
          omega
        by_cases hc : j + 1 = rest.length + 1 - 1
        · rw [if_pos hc, if_pos (hiff.mp hc)]
        · rw [if_neg hc, if_neg (fun hh => hc (hiff.mpr hh))]
      have hget : (x :: rest).get ⟨j + 1, h⟩ = rest.get ⟨j, hj⟩ := rfl
      rw [hget, hm]
      have hmem := ih j hj
      cases x with
      | file nm =>
        simp only [renderItems]
        exact List.mem_cons_of_mem _ hmem
      | dir nm cs =>
        simp only [renderItems]
        exact List.mem_cons_of_mem _ (List.mem_append_right _ hmem)

/-- C7: tree rendering is deterministic (a pure function of the modelled
filesystem snapshot and the patterns); among the non-excluded children of
any directory every subdirectory sorts before every file with
case-insensitive lexicographic order within each group; and each visible
entry's line carries `└── ` exactly when it is the last sibling and
`├── ` otherwise. -/
theorem claim_C7_tree_rendering (g c : List Str) (root : List FsNode)
    (rules : List IgnoreRule) (pathAcc : List Str) (pre : Str)
    (children : List FsNode) (i : Nat)
    (h : i < (visibleSorted rules pathAcc children).length) :
    generateTreeStructure g c root = generateTreeStructure g c root
  ∧ List.Pairwise (fun a b =>
      (nodeIsDir b = true → nodeIsDir a = true) ∧
      (nodeIsDir a = nodeIsDir b → strLeCI (nodeName a) (nodeName b) = true))
      (visibleSorted rules pathAcc children)
  ∧ listDirectoryTree rules pathAcc pre children =
      renderItems rules pathAcc pre (visibleSorted rules pathAcc children)
  ∧ (pre ++ markerFor i (visibleSorted rules pathAcc children).length ++
       nodeName ((visibleSorted rules pathAcc children).get ⟨i, h⟩)) ∈
      listDirectoryTree rules pathAcc pre children := by
  refine ⟨rfl, visibleSorted_pairwise rules pathAcc children, ?_, ?_⟩
  · rw [listDirectoryTree]
  · rw [listDirectoryTree]
    exact renderItems_mem rules pathAcc pre _ i h

/-- Witness for C7: a single visible file is rendered with the
last-sibling marker. -/
theorem claim_C7_tree_rendering_witness :
    (([] : Str) ++
      markerFor 0 (visibleSorted [] [] [FsNode.file ("a".toList)]).length ++
      nodeName ((visibleSorted [] [] [FsNode.file ("a".toList)]).get
        ⟨0, by simp [visibleSorted, cascadeIgnores, matchLast, List.mergeSort]⟩)) ∈
      listDirectoryTree [] [] [] [FsNode.file ("a".toList)] :=
  (claim_C7_tree_rendering [] [] [] [] [] [] [FsNode.file ("a".toList)] 0
    (by simp [visibleSorted, cascadeIgnores, matchLast, List.mergeSort])).2.2.2

/-! # Helper lemmas for the Ignore Engine -/

theorem foldl_stepRule_mono {path : List Str} {asDir : Bool}
    (rules : List IgnoreRule) {b b' : Bool} (hb : b = true → b' = true)
    (h : rules.foldl (stepRule path asDir) b = true) :
    rules.foldl (stepRule path asDir) b' = true := by
  induction rules generalizing b b' with
  | nil => exact hb h
  | cons r rs ih =>
    simp only [List.foldl_cons] at h ⊢
    refine ih ?_ h
    intro hs
    unfold stepRule at hs ⊢
    by_cases hm : ruleMatchesPath r path asDir = true
    · rwa [if_pos hm] at hs ⊢
    · rw [if_neg hm] at hs ⊢
      exact hb hs

theorem matchLast_insert_pos {A B : List IgnoreRule} {r : IgnoreRule}
    (hr : r.negative = false) {path : List Str} {asDir : Bool}
    (h : matchLast (A ++ B) path asDir = true) :
    matchLast (A ++ r :: B) path asDir = true := by
  rw [matchLast, List.foldl_append] at h ⊢
  rw [List.foldl_cons]
  refine foldl_stepRule_mono B ?_ h
  intro hs
  unfold stepRule
  by_cases hm : ruleMatchesPath r path asDir = true
  · rw [if_pos hm, hr]
    rfl
  · rwa [if_neg hm]

theorem cascadeIgnores_insert_pos {A B : List IgnoreRule} {r : IgnoreRule}
    (hr : r.negative = false) (p : List Str) :
    ∀ acc, cascadeIgnores (A ++ B) acc p = true →
      cascadeIgnores (A ++ r :: B) acc p = true := by
  induction p with
  | nil => intro acc h; simp [cascadeIgnores] at h
  | cons s rest ih =>
    intro acc h
    simp only [cascadeIgnores] at h ⊢
    by_cases hre : rest.isEmpty = true
    · rw [if_pos hre] at h ⊢
      exact matchLast_insert_pos hr h
    · rw [if_neg hre] at h ⊢
      rw [Bool.or_eq_true] at h ⊢
      rcases h with h | h
      · exact Or.inl (matchLast_insert_pos hr h)
      · exact Or.inr (ih _ h)

theorem parsePattern_nonneg {pat : Str} {r : IgnoreRule}
    (hp : pat.head? ≠ some '!') (h : parsePattern pat = some r) :
    r.negative = false := by
  simp only [parsePattern] at h
  split at h
  · exact absurd h (by simp)
  · split at h
    · exact absurd h (by simp)
    · rw [Option.some.injEq] at h
      rw [← h]
      simpa using hp

theorem foldl_stepRule_allpos {path : List Str} {asDir : Bool} :
    ∀ (rules : List IgnoreRule) (b : Bool),
    (∀ r ∈ rules, r.negative = false) →
    rules.foldl (stepRule path asDir) b =
      (b || rules.any (fun r => ruleMatchesPath r path asDir)) := by
  intro rules
  induction rules with
  | nil => intro b _; simp
  | cons r rs ih =>
    intro b hpos
    simp only [List.foldl_cons, List.any_cons]
    rw [ih _ (fun x hx => hpos x (by simp [hx]))]
    have hstep : stepRule path asDir b r = (b || ruleMatchesPath r path asDir) := by
      unfold stepRule
      by_cases hm : ruleMatchesPath r path asDir = true
      · rw [if_pos hm, hpos r (by simp), hm]
        simp
      · have hm' : ruleMatchesPath r path asDir = false := by
          rwa [Bool.not_eq_true] at hm
        rw [if_neg hm, hm']
        simp
    rw [hstep, Bool.or_assoc]

theorem matchLast_allpos {rules : List IgnoreRule}
    (hpos : ∀ r ∈ rules, r.negative = false) (path : List Str) (asDir : Bool) :
    matchLast rules path asDir =
      rules.any (fun r => ruleMatchesPath r path asDir) := by
  rw [matchLast, foldl_stepRule_allpos rules false hpos]
  simp

theorem cascadeIgnores_append_allpos {R₁ R₂ : List IgnoreRule}
    (h₁ : ∀ r ∈ R₁, r.negative = false) (h₂ : ∀ r ∈ R₂, r.negative = false)
    (p : List Str) :
    ∀ acc, cascadeIgnores (R₁ ++ R₂) acc p =
      (cascadeIgnores R₁ acc p || cascadeIgnores R₂ acc p) := by
  have hall : ∀ r ∈ R₁ ++ R₂, r.negative = false := by
    intro r hr
    rcases List.mem_append.mp hr with h | h
    · exact h₁ r h
    · exact h₂ r h
  have hml : ∀ q d, matchLast (R₁ ++ R₂) q d =
      (matchLast R₁ q d || matchLast R₂ q d) := by
    intro q d
    rw [matchLast_allpos hall, matchLast_allpos h₁, matchLast_allpos h₂,
      List.any_append]
  induction p with
  | nil => intro acc; simp [cascadeIgnores]
  | cons s rest ih =>
    intro acc
    simp only [cascadeIgnores]
    by_cases hre : rest.isEmpty = true
    · rw [if_pos hre, if_pos hre, if_pos hre, hml]
    · rw [if_neg hre, if_neg hre, if_neg hre, hml, ih]
      cases matchLast R₁ (acc ++ [s]) true <;>
        cases matchLast R₂ (acc ++ [s]) true <;>
        cases cascadeIgnores R₁ (acc ++ [s]) rest <;>
        cases cascadeIgnores R₂ (acc ++ [s]) rest <;> rfl

theorem tokMatch_lits : ∀ (pat s : Str),
    tokMatch (pat.map GlobTok.lit) s = decide (s = pat) := by
  intro pat
  induction pat with
  | nil =>
    intro s
    cases s <;> simp [tokMatch]
  | cons c cs ih =>
    intro s
    cases s with
    | nil => simp [tokMatch]
    | cons d ds =>
      simp only [List.map_cons, tokMatch, ih]
      by_cases hd : d = c
      · subst hd; simp
      · simp [hd]

/-- The rule parsed from the `.git` layer of `generateTreeStructure`. -/
theorem gitRule_parse :
    ([".git".toList]).filterMap parsePattern =
      [⟨false, false, false,
        [GlobSeg.toks (".git".toList.map GlobTok.lit)]⟩] := by decide

theorem cascade_gitRule_false (p : List Str)
    (hp : ∀ s ∈ p, s ≠ ".git".toList) :
    ∀ acc, cascadeIgnores (([".git".toList]).filterMap parsePattern) acc p =
      false := by
  rw [gitRule_parse]
  have hrule : ∀ (q : List Str) (s : Str) (d : Bool), s ≠ ".git".toList →
      matchLast [⟨false, false, false,
        [GlobSeg.toks (".git".toList.map GlobTok.lit)]⟩] (q ++ [s]) d = false := by
    intro q s d hs
    have hrm : ruleMatchesPath ⟨false, false, false,
        [GlobSeg.toks (".git".toList.map GlobTok.lit)]⟩ (q ++ [s]) d = false := by
      unfold ruleMatchesPath
      rw [if_neg (by simp), if_neg (by simp), List.getLast?_concat]
      show tokMatch (".git".toList.map GlobTok.lit) s = false
      rw [tokMatch_lits]
      simp only [decide_eq_false_iff_not]
      intro he
      exact hs (he.trans (by decide))
    rw [show List.map GlobTok.lit (".git".toList) =
      [GlobTok.lit '.', GlobTok.lit 'g', GlobTok.lit 'i', GlobTok.lit 't'] from by
        decide] at hrm
    simp [matchLast, stepRule, hrm]
  induction p with
  | nil => intro acc; rfl
  | cons s rest ih =>
    intro acc
    have hs := hp s (by simp)
    simp only [cascadeIgnores]
    by_cases hre : rest.isEmpty = true
    · rw [if_pos hre, hrule acc s false hs]
    · rw [if_neg hre, hrule acc s true hs, Bool.false_or]
      exact ih (fun x hx => hp x (by simp [hx])) _

theorem filterMap_parse_nonneg {ps : List Str}
    (hps : ∀ pat ∈ ps, pat.head? ≠ some '!') :
    ∀ r ∈ ps.filterMap parsePattern, r.negative = false := by
  intro r hr
  rcases List.mem_filterMap.mp hr with ⟨pat, hpat, hparse⟩
  exact parsePattern_nonneg (hps pat hpat) hparse

/-- Counterexample to C1 as stated: with no `.gitignore` and no caller
patterns the two predicates already differ — `package-lock.json` (one of
the built-in defaults) is excluded by the Content Extractor but not by the
Tree Renderer, whose filter never receives the built-in default layer. -/
theorem claim_C1_counterexample :
    treeIgnores [] [] ["package-lock.json".toList] = false
  ∧ contentIgnores [] [] ["package-lock.json".toList] = true :=
  ⟨by decide, by decide⟩

/-- C1 (amended): the two predicates are not identical — the Content
Extractor's filter is seeded with the built-in default patterns and
root-anchored `.git` contents, the Tree Renderer's only with the bare
`.git` pattern.  The `.gitignore` and caller layers do agree: when those
layers contain no negation lines, every path without a `.git` segment
excluded by the Tree Renderer is also excluded by the Content Extractor. -/
theorem claim_C1_tree_content_predicates (g c p : List Str)
    (hng : ∀ pat ∈ g, pat.head? ≠ some '!')
    (hnc : ∀ pat ∈ c, pat.head? ≠ some '!')
    (hp : ∀ s ∈ p, s ≠ ".git".toList)
    (ht : treeIgnores g c p = true) : contentIgnores g c p = true := by
  have hFg : ∀ r ∈ (g ++ c).filterMap parsePattern, r.negative = false := by
    refine filterMap_parse_nonneg ?_
    intro pat hpat
    rcases List.mem_append.mp hpat with h | h
    · exact hng pat h
    · exact hnc pat h
  have hbase : ∀ r ∈ ([".git".toList]).filterMap parsePattern,
      r.negative = false := by decide
  have hcbase : ∀ r ∈ ((".git/**".toList :: DEFAULT_IGNORE_PATTERNS).filterMap
      parsePattern), r.negative = false := by decide
  have htree : treeIgnores g c p =
      (cascadeIgnores (([".git".toList]).filterMap parsePattern) [] p ||
        cascadeIgnores ((g ++ c).filterMap parsePattern) [] p) := by
    rw [treeIgnores, ignoresPatterns, treeLayerPatterns,
      show [".git".toList] ++ g ++ c = [".git".toList] ++ (g ++ c) from by simp,
      List.filterMap_append]
    exact cascadeIgnores_append_allpos hbase hFg p []
  have hcontent : contentIgnores g c p =
      (cascadeIgnores ((".git/**".toList :: DEFAULT_IGNORE_PATTERNS).filterMap
          parsePattern) [] p ||
        cascadeIgnores ((g ++ c).filterMap parsePattern) [] p) := by
    rw [contentIgnores, ignoresPatterns, contentLayerPatterns,
      show [".git/**".toList] ++ DEFAULT_IGNORE_PATTERNS ++ g ++ c =
        (".git/**".toList :: DEFAULT_IGNORE_PATTERNS) ++ (g ++ c) from by simp,
      List.filterMap_append]
    exact cascadeIgnores_append_allpos hcbase hFg p []
  rw [htree, cascade_gitRule_false p hp, Bool.false_or] at ht
  rw [hcontent, ht, Bool.or_true]

/-- Witness for C1 (amended): a `.gitignore` line `build` excludes
`build/out.txt` from the tree view, hence also from the content view. -/
theorem claim_C1_tree_content_predicates_witness :
    contentIgnores ["build".toList] [] ["build".toList, "out.txt".toList] =
      true :=
  claim_C1_tree_content_predicates ["build".toList] []
    ["build".toList, "out.txt".toList]
    (by decide) (by decide) (by decide) (by decide)

/-- Counterexample to C5 as stated: adding the negation pattern `!a.md` to
the caller layer re-includes `a.md`, which the accumulated rules had
excluded — adding a pattern un-excluded a path. -/
theorem claim_C5_counterexample :
    contentIgnores [] ["*.md".toList] ["a.md".toList] = true
  ∧ contentIgnores [] ["*.md".toList, "!a.md".toList] ["a.md".toList] = false :=
  ⟨by decide, by decide⟩

/-- C5 (amended): the composed ignore predicate is monotone under adding
any non-negation pattern: inserting a pattern line that does not start
with `!` at any point of the flattened layer list — in particular into the
`.gitignore` layer or the caller layer of the Content Extractor's
predicate — preserves every exclusion. -/
theorem claim_C5_monotone_nonneg (pat : Str) (p : List Str)
    (hpat : pat.head? ≠ some '!') :
    (∀ ps₁ ps₂, ignoresPatterns (ps₁ ++ ps₂) p = true →
       ignoresPatterns (ps₁ ++ pat :: ps₂) p = true)
  ∧ (∀ g₁ g₂ c, contentIgnores (g₁ ++ g₂) c p = true →
       contentIgnores (g₁ ++ pat :: g₂) c p = true)
  ∧ (∀ g c₁ c₂, contentIgnores g (c₁ ++ c₂) p = true →
       contentIgnores g (c₁ ++ pat :: c₂) p = true) := by
  have key : ∀ ps₁ ps₂, ignoresPatterns (ps₁ ++ ps₂) p = true →
      ignoresPatterns (ps₁ ++ pat :: ps₂) p = true := by
    intro ps₁ ps₂ h
    rw [ignoresPatterns, List.filterMap_append] at h ⊢
    rw [List.filterMap_cons]
    cases hparse : parsePattern pat with
    | none => exact h
    | some r =>
      exact cascadeIgnores_insert_pos (parsePattern_nonneg hpat hparse) p [] h
  refine ⟨key, ?_, ?_⟩
  · intro g₁ g₂ c h
    have e1 : contentLayerPatterns (g₁ ++ g₂) c =
        ((".git/**".toList :: DEFAULT_IGNORE_PATTERNS) ++ g₁) ++ (g₂ ++ c) := by
      simp [contentLayerPatterns]
    have e2 : contentLayerPatterns (g₁ ++ pat :: g₂) c =
        ((".git/**".toList :: DEFAULT_IGNORE_PATTERNS) ++ g₁) ++
          pat :: (g₂ ++ c) := by
      simp [contentLayerPatterns]
    rw [contentIgnores, e2]
    rw [contentIgnores, e1] at h
    exact key _ _ h
  · intro g c₁ c₂ h
    have e1 : contentLayerPatterns g (c₁ ++ c₂) =
        ((".git/**".toList :: DEFAULT_IGNORE_PATTERNS) ++ g ++ c₁) ++ c₂ := by
      simp [contentLayerPatterns]
    have e2 : contentLayerPatterns g (c₁ ++ pat :: c₂) =
        ((".git/**".toList :: DEFAULT_IGNORE_PATTERNS) ++ g ++ c₁) ++
          pat :: c₂ := by
      simp [contentLayerPatterns]
    rw [contentIgnores, e2]
    rw [contentIgnores, e1] at h
    exact key _ _ h

/-- Witness for C5 (amended): inserting `*.txt` after `*.md` keeps `x.md`
excluded. -/
theorem claim_C5_monotone_nonneg_witness :
    ignoresPatterns (["*.md".toList] ++ "*.txt".toList :: []) ["x.md".toList] =
      true :=
  (claim_C5_monotone_nonneg ("*.txt".toList) ["x.md".toList] (by decide)).1
    ["*.md".toList] [] (by decide)

/-- C3: per-file behavior of `extractRepositoryContent` on a non-excluded
file: a null byte among the first `min(512, size)` bytes (with a working
probe) silently drops the file from the content; a probe-clean file whose
text read succeeds contributes exactly `File: <relativePath>\n<content>\n`;
and a failed probe means the file is treated as not binary, its fate
decided solely by the full content read. -/
theorem claim_C3_binary_detection_and_sections (repoPath : Str)
    (g c : List Str) (files₁ files₂ : List FileEntry) (f : FileEntry)
    (hni : ignoresPatterns (contentLayerPatterns g c) f.segs = false) :
    (f.probeOk = true → (f.bytes.take 512).any (· == 0) = true →
       extractRepositoryContent repoPath true g c (files₁ ++ f :: files₂) =
         extractRepositoryContent repoPath true g c (files₁ ++ files₂))
  ∧ (∀ t, f.probeOk = true → (f.bytes.take 512).any (· == 0) = false →
       f.text = some t →
       extractRepositoryContent repoPath true g c (files₁ ++ f :: files₂) =
         .ok (List.intercalate ['\n']
           (files₁.filterMap
              (processFile ((contentLayerPatterns g c).filterMap parsePattern)) ++
            ("File: ".toList ++ joinSegs f.segs ++ ['\n'] ++ t ++ ['\n']) ::
              files₂.filterMap
                (processFile ((contentLayerPatterns g c).filterMap parsePattern)))))
  ∧ (f.probeOk = false →
       isBinaryFile f = false ∧
       processFile ((contentLayerPatterns g c).filterMap parsePattern) f =
         f.text.map
           (fun t => "File: ".toList ++ joinSegs f.segs ++ ['\n'] ++ t ++ ['\n'])) := by
  have hni' : cascadeIgnores ((contentLayerPatterns g c).filterMap parsePattern)
      [] f.segs = false := hni
  refine ⟨?_, ?_, ?_⟩
  · intro hprobe hnull
    have hpf : processFile ((contentLayerPatterns g c).filterMap parsePattern) f =
        none := by
      rw [processFile, if_neg (by simp [hni']), if_pos]
      rw [isBinaryFile, if_pos (by simp [hprobe]), hnull]
    simp [extractRepositoryContent, List.filterMap_append, List.filterMap_cons, hpf]
  · intro t hprobe hnull htext
    have hpf : processFile ((contentLayerPatterns g c).filterMap parsePattern) f =
        some ("File: ".toList ++ joinSegs f.segs ++ ['\n'] ++ t ++ ['\n']) := by
      rw [processFile, if_neg (by simp [hni']), if_neg, htext]
      · rfl
      · rw [isBinaryFile, if_pos (by simp [hprobe]), hnull]
        simp
    simp [extractRepositoryContent, List.filterMap_append, List.filterMap_cons, hpf]
  · intro hprobe
    have hbin : isBinaryFile f = false := by
      rw [isBinaryFile, if_neg (by simp [hprobe])]
    refine ⟨hbin, ?_⟩
    rw [processFile, if_neg (by simp [hni']), if_neg (by simp [hbin])]

/-- Witness for C3: a binary file (null in its probe) vanishes, a clean
text file contributes its section, and a probe-failing file is decided by
its text read. -/
theorem claim_C3_binary_detection_and_sections_witness :
    (extractRepositoryContent [] true [] []
        [⟨["logo.png".toList], [137, 0, 13], true, some []⟩] =
      extractRepositoryContent [] true [] [] [])
  ∧ (extractRepositoryContent [] true [] []
        [⟨["main.go".toList], [112], true, some ("package x".toList)⟩] =
      .ok (List.intercalate ['\n']
        (([] : List FileEntry).filterMap
            (processFile ((contentLayerPatterns [] []).filterMap parsePattern)) ++
          ("File: ".toList ++ joinSegs ["main.go".toList] ++ ['\n'] ++
            "package x".toList ++ ['\n']) ::
            ([] : List FileEntry).filterMap
              (processFile ((contentLayerPatterns [] []).filterMap parsePattern)))))
  ∧ (isBinaryFile ⟨["x.dat".toList], [0, 0], false, none⟩ = false ∧
      processFile ((contentLayerPatterns [] []).filterMap parsePattern)
        ⟨["x.dat".toList], [0, 0], false, none⟩ =
        (none : Option Str).map
          (fun t => "File: ".toList ++ joinSegs ["x.dat".toList] ++ ['\n'] ++
            t ++ ['\n'])) :=
  ⟨(claim_C3_binary_detection_and_sections [] [] [] [] []
      ⟨["logo.png".toList], [137, 0, 13], true, some []⟩ (by decide)).1 rfl
      (by decide),
    (claim_C3_binary_detection_and_sections [] [] [] [] []
      ⟨["main.go".toList], [112], true, some ("package x".toList)⟩
      (by decide)).2.1 ("package x".toList) rfl (by decide) rfl,
    (claim_C3_binary_detection_and_sections [] [] [] [] []
      ⟨["x.dat".toList], [0, 0], false, none⟩ (by decide)).2.2 rfl⟩

/-- Counterexample to C6 as stated: when the unzip stream fails,
`cloneRepository` throws the wrapped error while both the scratch
extraction directory and the downloaded archive are still on disk. -/
theorem claim_C6_counterexample :
    cloneRepository ⟨"https://github.com/a/b".toList, some ("main".toList)⟩
      ⟨.ok ("main".toList), .ok ("main".toList), true, [], true, false,
        "bad zip".toList⟩ =
      ⟨.error (cloneWrap ("bad zip".toList)), true, true⟩ := rfl

/-- C6 (amended): `cloneRepository` removes the scratch extraction
directory and the archive file exactly on its success path; when the
download succeeds but extraction fails, it throws the wrapped extraction
error and leaves both the archive and the scratch directory behind. -/
theorem claim_C6_cleanup_on_success_only (info : GitUrlInfo) (env : CloneEnv) :
    ((cloneRepository info env).result = .ok () →
       (cloneRepository info env).archiveExists = false ∧
         (cloneRepository info env).extractDirExists = false)
  ∧ (∀ z, getZipDownloadUrl info.url info.branch env = .ok z →
       env.downloadOk = true → env.extractOk = false →
       cloneRepository info env =
         ⟨.error (cloneWrap env.extractErr), true, true⟩) := by
  cases hz : getZipDownloadUrl info.url info.branch env with
  | error e =>
    constructor
    · intro h
      simp [cloneRepository, hz]
    · intro z hzz
      simp at hzz
  | ok z0 =>
    constructor
    · intro h
      by_cases hd : env.downloadOk = true <;> by_cases hx : env.extractOk = true <;>
        simp [cloneRepository, hz, hd, hx] at h ⊢
    · intro z hzz hd hx
      simp [cloneRepository, hz, hd, hx]

/-- Witness for C6 (amended): a successful run cleans up; an
extraction-failure run leaves both artifacts. -/
theorem claim_C6_cleanup_on_success_only_witness :
    ((cloneRepository ⟨"https://github.com/a/b".toList, some ("main".toList)⟩
        ⟨.ok ("main".toList), .ok ("main".toList), true, [], true, true,
          []⟩).archiveExists = false ∧
      (cloneRepository ⟨"https://github.com/a/b".toList, some ("main".toList)⟩
        ⟨.ok ("main".toList), .ok ("main".toList), true, [], true, true,
          []⟩).extractDirExists = false)
  ∧ cloneRepository ⟨"https://github.com/a/b".toList, some ("main".toList)⟩
      ⟨.ok ("main".toList), .ok ("main".toList), true, [], true, false,
        "boom".toList⟩ =
      ⟨.error (cloneWrap ("boom".toList)), true, true⟩ :=
  ⟨(claim_C6_cleanup_on_success_only
      ⟨"https://github.com/a/b".toList, some ("main".toList)⟩
      ⟨.ok ("main".toList), .ok ("main".toList), true, [], true, true, []⟩).1 rfl,
    (claim_C6_cleanup_on_success_only
      ⟨"https://github.com/a/b".toList, some ("main".toList)⟩
      ⟨.ok ("main".toList), .ok ("main".toList), true, [], true, false,
        "boom".toList⟩).2
      ("https://github.com/a/b/archive/main.zip".toList) rfl rfl rfl⟩

/-! # Helper lemmas for C10 -/

theorem dotPlusGit_append {a : Str} (ha : a ≠ [])
    (ha' : ∀ x ∈ a, jsDot x = true) : dotPlusGit (a ++ ".git".toList) = true := by
  have hrev : (a ++ ".git".toList).reverse = 't' :: 'i' :: 'g' :: '.' :: a.reverse := by
    rw [List.reverse_append,
      show ".git".toList.reverse = ['t', 'i', 'g', '.'] from by decide]
    rfl
  simp only [dotPlusGit, hrev, Bool.and_eq_true, ne_eq, List.reverse_eq_nil_iff,
    List.all_reverse]
  exact ⟨by simpa using ha, List.all_eq_true.mpr ha'⟩

theorem sshGitTest_true {host body : Str} (hh : host ≠ [])
    (hh' : ∀ x ∈ host, x ≠ ':') (hd : dotPlusGit body = true) :
    sshGitTest ("git@".toList ++ host ++ [':'] ++ body) = true := by
  have e : "git@".toList ++ host ++ [':'] ++ body =
      "git@".toList ++ (host ++ ':' :: body) := by simp
  simp only [sshGitTest, e, dropPre_self_append,
    takeSeg_append_sep ':' _ hh', dropSeg_append_sep ':' _ hh', if_neg hh, hd]

theorem httpsGitTest_true {host body : Str} (hh : host ≠ [])
    (hh' : ∀ x ∈ host, x ≠ '/') (hd : dotPlusGit body = true) :
    httpsGitTest ("https://".toList ++ host ++ ['/'] ++ body) = true := by
  have e : "https://".toList ++ host ++ ['/'] ++ body =
      "https://".toList ++ (host ++ '/' :: body) := by simp
  simp only [httpsGitTest, e, dropPre_self_append,
    takeSeg_append_sep '/' _ hh', dropSeg_append_sep '/' _ hh', if_neg hh, hd]

theorem repoApiMatch_none_of_dropPre {hostPre url : Str}
    (h : dropPre hostPre url = none) : repoApiMatch hostPre url = none := by
  simp [repoApiMatch, h]

theorem dropPre_h_g {ps ls : Str} : dropPre ('h' :: ps) ('g' :: ls) = none := by
  simp only [dropPre]
  rw [if_neg (by decide)]

theorem dropPre_gh_sshUrl (t : Str) :
    dropPre ghHost ("git@".toList ++ t) = none := by
  rw [show "git@".toList ++ t = 'g' :: ("it@".toList ++ t) from rfl,
    show ghHost = 'h' :: "ttps://github.com/".toList from by decide]
  exact dropPre_h_g

theorem dropPre_gl_sshUrl (t : Str) :
    dropPre glHost ("git@".toList ++ t) = none := by
  rw [show "git@".toList ++ t = 'g' :: ("it@".toList ++ t) from rfl,
    show glHost = 'h' :: "ttps://gitlab.com/".toList from by decide]
  exact dropPre_h_g

/-- The provider regexes fail on `https://<h2>/...` when `h2` is a
different host. -/
theorem dropPre_host_of_other {hostTail h2 : Str} (rest : Str)
    (hht : '/' ∉ hostTail) (hgb : '/' ∉ h2) (hne : h2 ≠ hostTail) :
    dropPre ("https://".toList ++ hostTail ++ ['/'])
      ("https://".toList ++ h2 ++ '/' :: rest) = none := by
  have e : "https://".toList ++ hostTail ++ ['/'] =
      "https://".toList ++ (hostTail ++ ['/']) := by simp
  have e2 : "https://".toList ++ h2 ++ '/' :: rest =
      "https://".toList ++ (h2 ++ '/' :: rest) := by simp
  rw [e, e2, dropPre_append_both]
  cases hdp : dropPre (hostTail ++ ['/']) (h2 ++ '/' :: rest) with
  | none => rfl
  | some t =>
    have he := eq_append_of_dropPre hdp
    rw [show (hostTail ++ ['/']) ++ t = hostTail ++ '/' :: t from by simp] at he
    exact absurd (sep_split_unique hgb hht he).1 hne

/-- When neither provider regex matches the URL, `cloneRepository` always
fails with the wrapped "Unsupported repository URL format" error. -/
theorem clone_unsupported {url : Str}
    (hgh : repoApiMatch ghHost url = none)
    (hgl : repoApiMatch glHost url = none) (env : CloneEnv) (br : Option Str) :
    (cloneRepository ⟨url, br⟩ env).result =
      .error (cloneWrap ("Unsupported repository URL format".toList)) := by
  have hz : getZipDownloadUrl url br env =
      .error ("Unsupported repository URL format".toList) := by
    cases br with
    | none => simp [getZipDownloadUrl, getDefaultBranch, hgh, hgl]
    | some b => simp [getZipDownloadUrl, hgh, hgl]
  simp [cloneRepository, hz]

/-- C10: every SSH-style URL `git@<host>:<owner>/<repo>.git` and every
https `.git` URL whose host is neither `github.com` nor `gitlab.com`
passes `isGitUrl`, yet `cloneRepository` fails on it, in every environment
and for every optional branch, with the wrapped
"Unsupported repository URL format" error — so only github.com and
gitlab.com repositories can ever be ingested successfully. -/
theorem claim_C10_accepted_but_never_ingested
    (sshUrl httpsUrl host owner repo h2 p2 : Str)
    (hs : sshUrl =
      "git@".toList ++ host ++ [':'] ++ (owner ++ ['/'] ++ repo) ++ ".git".toList)
    (hh : host ≠ []) (hh' : ∀ x ∈ host, x ≠ ':')
    (hown' : ∀ x ∈ owner, jsDot x = true) (hrep' : ∀ x ∈ repo, jsDot x = true)
    (hu : httpsUrl = "https://".toList ++ h2 ++ ['/'] ++ (p2 ++ ".git".toList))
    (hga : h2 ≠ []) (hgb : ∀ x ∈ h2, x ≠ '/')
    (hgh2 : h2 ≠ "github.com".toList) (hgl2 : h2 ≠ "gitlab.com".toList)
    (hp2 : p2 ≠ []) (hp2' : ∀ x ∈ p2, jsDot x = true) :
    (isGitUrl sshUrl = true ∧ isGitUrl httpsUrl = true)
  ∧ (∀ env br, (cloneRepository ⟨sshUrl, br⟩ env).result =
      .error (cloneWrap ("Unsupported repository URL format".toList)))
  ∧ (∀ env br, (cloneRepository ⟨httpsUrl, br⟩ env).result =
      .error (cloneWrap ("Unsupported repository URL format".toList))) := by
  have hbody : dotPlusGit ((owner ++ '/' :: repo) ++ ".git".toList) = true := by
    refine dotPlusGit_append (by simp) ?_
    intro x hx
    rcases List.mem_append.mp hx with hxo | hxc
    · exact hown' x hxo
    · rcases List.mem_cons.mp hxc with rfl | hxr
      · decide
      · exact hrep' x hxr
  have hbody2 : dotPlusGit (p2 ++ ".git".toList) = true :=
    dotPlusGit_append hp2 hp2'
  have hsshape : sshUrl = "git@".toList ++ host ++ [':'] ++
      ((owner ++ '/' :: repo) ++ ".git".toList) := by
    rw [hs]; simp
  have hssh : sshGitTest sshUrl = true := by
    rw [hsshape]; exact sshGitTest_true hh hh' hbody
  have hhttps : httpsGitTest httpsUrl = true := by
    rw [hu]; exact httpsGitTest_true hga hgb hbody2
  have hsg : dropPre ghHost sshUrl = none := by
    rw [hs, show "git@".toList ++ host ++ [':'] ++ (owner ++ ['/'] ++ repo) ++
        ".git".toList = "git@".toList ++
        (host ++ [':'] ++ (owner ++ ['/'] ++ repo) ++ ".git".toList) from by simp]
    exact dropPre_gh_sshUrl _
  have hsl : dropPre glHost sshUrl = none := by
    rw [hs, show "git@".toList ++ host ++ [':'] ++ (owner ++ ['/'] ++ repo) ++
        ".git".toList = "git@".toList ++
        (host ++ [':'] ++ (owner ++ ['/'] ++ repo) ++ ".git".toList) from by simp]
    exact dropPre_gl_sshUrl _
  have hug : dropPre ghHost httpsUrl = none := by
    rw [hu, show ghHost = "https://".toList ++ "github.com".toList ++ ['/'] from by
        decide,
      show "https://".toList ++ h2 ++ ['/'] ++ (p2 ++ ".git".toList) =
        "https://".toList ++ h2 ++ '/' :: (p2 ++ ".git".toList) from by simp]
    exact dropPre_host_of_other _ (by decide)
      (fun hm => hgb '/' hm rfl) hgh2
  have hul : dropPre glHost httpsUrl = none := by
    rw [hu, show glHost = "https://".toList ++ "gitlab.com".toList ++ ['/'] from by
        decide,
      show "https://".toList ++ h2 ++ ['/'] ++ (p2 ++ ".git".toList) =
        "https://".toList ++ h2 ++ '/' :: (p2 ++ ".git".toList) from by simp]
    exact dropPre_host_of_other _ (by decide)
      (fun hm => hgb '/' hm rfl) hgl2
  refine ⟨⟨by simp [isGitUrl, hssh], by simp [isGitUrl, hhttps]⟩, ?_, ?_⟩
  · intro env br
    exact clone_unsupported (repoApiMatch_none_of_dropPre hsg)
      (repoApiMatch_none_of_dropPre hsl) env br
  · intro env br
    exact clone_unsupported (repoApiMatch_none_of_dropPre hug)
      (repoApiMatch_none_of_dropPre hul) env br

/-- Witness for C10: `git@bitbucket.org:acme/widgets.git` and
`https://example.com/acme/widgets.git`. -/
theorem claim_C10_accepted_but_never_ingested_witness :
    (isGitUrl ("git@bitbucket.org:acme/widgets.git".toList) = true ∧
      isGitUrl ("https://example.com/acme/widgets.git".toList) = true)
  ∧ (∀ env br,
      (cloneRepository ⟨"git@bitbucket.org:acme/widgets.git".toList, br⟩
        env).result =
      .error (cloneWrap ("Unsupported repository URL format".toList)))
  ∧ (∀ env br,
      (cloneRepository ⟨"https://example.com/acme/widgets.git".toList, br⟩
        env).result =
      .error (cloneWrap ("Unsupported repository URL format".toList))) :=
  claim_C10_accepted_but_never_ingested
    ("git@bitbucket.org:acme/widgets.git".toList)
    ("https://example.com/acme/widgets.git".toList)
    ("bitbucket.org".toList) ("acme".toList) ("widgets".toList)
    ("example.com".toList) ("acme/widgets".toList)
    (by decide) (by decide) (by decide) (by decide) (by decide) (by decide)
    (by decide) (by decide) (by decide) (by decide) (by decide) (by decide)

/-- Witness for C2: the claim's concrete example,
`https://github.com/acme/widgets/tree/main`. -/
theorem claim_C2_url_normalizer_witness :
    convertUrlToGitUrl ("https://github.com/acme/widgets/tree/main".toList) =
      ⟨"https://github.com/acme/widgets.git".toList, some ("main".toList)⟩ := by
  have h := (claim_C2_url_normalizer ("acme".toList) ("widgets".toList) ("main".toList)
    (by decide) (by decide) (by decide) (by decide) (by decide) (by decide)).2.1
  rw [show "https://github.com/acme/widgets/tree/main".toList =
      ghHost ++ "acme".toList ++ ['/'] ++ "widgets".toList ++ "/tree/".toList ++
        "main".toList from by decide, h]
  decide

end RepoGist
